import Mathlib

/-!
Shallow embedding of the duplicate-detection and merge engine of
`src/DuplicateManagement.tsx` (unponic-admin-dashboard).

The matcher (`findDuplicates`, `isDuplicate`, `calculateNameSimilarity`,
`levenshteinDistance`, `calculateDuplicateScore`, `getDuplicateReason`) is
translated directly from the TypeScript source.  JavaScript strings become
`String`, optional fields become `Option _`, JavaScript truthiness of an
optional string (`undefined` and `""` are falsy) and of an optional number
(`undefined` and `0` are falsy) is made explicit, and JavaScript number
arithmetic on the small integer scores becomes `Int` / `ℚ` arithmetic.

The merge coordinator (`executeMerge`) performs a sequence of database
calls (reassign interactions, update the survivor's contact count, delete
absorbed clients), each of which can fail; the database is modelled as an
explicit state (`MergeState`) of the two tables and failures by an oracle
`fail : DbCall → Bool` deciding which call errors.  On the first failing
call the function stops, surfacing the error together with the state at
that point, exactly as the sequential `await`/`throw` structure of the
source does.
-/

/-- The `Client` row type of `DuplicateManagement.tsx` (interface `Client`,
lines 47–65).  Optional TypeScript fields are `Option`s. -/
structure Client where
  id : String
  first_name : String
  last_name : String
  middle : Option String := none
  aka : Option String := none
  age : Option Nat := none
  gender : Option String := none
  ethnicity : Option String := none
  height : Option String := none
  weight : Option String := none
  hair : Option String := none
  eyes : Option String := none
  description : Option String := none
  notes : Option String := none
  contacts : Nat := 0
  last_contact : Option String := none
  created_at : String := ""
deriving Repr, DecidableEq

/-- A row of the `interactions` table; only `client_id` is touched by the
merge logic. -/
structure Interaction where
  id : String
  client_id : String
deriving Repr, DecidableEq

/-- `DuplicateGroup` (lines 67–72). -/
structure DuplicateGroup where
  id : String
  clients : List Client
  score : Int
  reason : String
deriving Repr, DecidableEq

/-- JavaScript `String.prototype.toLowerCase`, character by character on
the string's character list. -/
def jsToLowerCase (s : String) : String :=
  ⟨s.data.map Char.toLower⟩

/-- JavaScript `String.prototype.trim` on a character list: drop
whitespace from both ends. -/
def jsTrimL (l : List Char) : List Char :=
  ((l.dropWhile Char.isWhitespace).reverse.dropWhile Char.isWhitespace).reverse

/-- JavaScript `String.prototype.trim`. -/
def jsTrim (s : String) : String :=
  ⟨jsTrimL s.data⟩

/-- JavaScript truthiness of an optional string: `undefined` and `""` are
falsy. -/
def optTruthy : Option String → Bool
  | none => false
  | some s => s ≠ ""

/-- JavaScript truthiness of an optional number: `undefined` and `0` are
falsy. -/
def natTruthy : Option Nat → Bool
  | none => false
  | some n => n ≠ 0

/-- One row of the Levenshtein dynamic-programming matrix, entries
`1 … str1.length`, given the character `c` of `str2` for this row, the
remaining columns of `str1`, the tail of the previous row starting at the
diagonal entry, and the entry to the left.  On a character match the entry
is the diagonal value, otherwise `1 + min diagonal (min left above)` —
the recurrence of lines 191–203 of the source. -/
def levRowRest (c : Char) : List Char → List Nat → Nat → List Nat
  | [], _, _ => []
  | a :: as, p :: q :: ps, left =>
    let v := if c = a then p else 1 + min p (min left q)
    v :: levRowRest c as (q :: ps) v
  | _ :: _, _, _ => []

/-- All remaining rows of the DP matrix, returning the final row.  `i` is
the current row index (first column value), `prev` the previous row. -/
def levRows (str1 : List Char) : List Char → Nat → List Nat → List Nat
  | [], _, prev => prev
  | c :: cs, i, prev => levRows str1 cs (i + 1) (i :: levRowRest c str1 prev i)

/-- `levenshteinDistance` (lines 183–205) on character lists: row 0 is
`[0, 1, …, str1.length]`, each further row is computed from the previous
one, and the answer is the last entry of the last row
(`matrix[str2.length][str1.length]`). -/
def levenshteinDistanceL (str1 str2 : List Char) : Nat :=
  (levRows str1 str2 1 (List.range (str1.length + 1))).getLastD 0

/-- `levenshteinDistance` (lines 183–205) on strings. -/
def levenshteinDistance (str1 str2 : String) : Nat :=
  levenshteinDistanceL str1.data str2.data

/-- `calculateNameSimilarity` (lines 172–181); the JavaScript floating
division is modelled exactly in `ℚ`. -/
def calculateNameSimilarity (name1 name2 : String) : ℚ :=
  let longer := if name1.length > name2.length then name1 else name2
  let shorter := if name1.length > name2.length then name2 else name1
  if longer.length = 0 then 1
  else ((longer.length : ℚ) - (levenshteinDistance longer shorter : ℚ)) / (longer.length : ℚ)

/-- `isDuplicate` (lines 141–170).  The early-return `if … return true`
chain is the disjunction of its four tests, in source order:
exact normalized-name equality, equality of (truthy) aliases, name/alias
cross match in both directions, and name similarity above `0.8` together
with one matching truthy demographic field. -/
def isDuplicate (client1 client2 : Client) : Bool :=
  let name1 := jsTrim (jsToLowerCase (client1.first_name ++ " " ++ client1.last_name))
  let name2 := jsTrim (jsToLowerCase (client2.first_name ++ " " ++ client2.last_name))
  (name1 == name2) ||
  (optTruthy client1.aka && optTruthy client2.aka &&
    (jsTrim (jsToLowerCase (client1.aka.getD "")) == jsTrim (jsToLowerCase (client2.aka.getD "")))) ||
  (optTruthy client1.aka && (name2 == jsTrim (jsToLowerCase (client1.aka.getD "")))) ||
  (optTruthy client2.aka && (name1 == jsTrim (jsToLowerCase (client2.aka.getD "")))) ||
  (decide (calculateNameSimilarity name1 name2 > (0.8 : ℚ)) &&
    ((client1.age == client2.age && natTruthy client1.age) ||
     (client1.gender == client2.gender && optTruthy client1.gender) ||
     (client1.ethnicity == client2.ethnicity && optTruthy client1.ethnicity)))

/-- `calculateDuplicateScore` (lines 207–226).  Note: the names here are
lowercased but NOT trimmed, exactly as in the source. -/
def calculateDuplicateScore (client1 client2 : Client) : Int :=
  let name1 := jsToLowerCase (client1.first_name ++ " " ++ client1.last_name)
  let name2 := jsToLowerCase (client2.first_name ++ " " ++ client2.last_name)
  let s1 : Int := if name1 == name2 then 100 else 0
  let s2 : Int := s1 + (if client1.age == client2.age && natTruthy client1.age then 20 else 0)
  let s3 : Int := s2 + (if client1.gender == client2.gender && optTruthy client1.gender then 15 else 0)
  let s4 : Int := s3 + (if client1.ethnicity == client2.ethnicity && optTruthy client1.ethnicity then 15 else 0)
  let s5 : Int := s4 + (if client1.height == client2.height && optTruthy client1.height then 10 else 0)
  let interactionDiff : Int := ((client1.contacts : Int) - (client2.contacts : Int)).natAbs
  max 0 (s5 - interactionDiff)

/-- `getDuplicateReason` (lines 228–237).  Names lowercased, not trimmed;
alias comparison lowercased, not trimmed; capitalized reason strings as in
the source. -/
def getDuplicateReason (client1 client2 : Client) : String :=
  let name1 := jsToLowerCase (client1.first_name ++ " " ++ client1.last_name)
  let name2 := jsToLowerCase (client2.first_name ++ " " ++ client2.last_name)
  if name1 == name2 then "Exact name match"
  else if optTruthy client1.aka && optTruthy client2.aka &&
      (jsToLowerCase (client1.aka.getD "") == jsToLowerCase (client2.aka.getD "")) then "Matching AKA"
  else "Similar name + demographics"

/-- The `forEach` loop of `findDuplicates` (lines 117–136): `processed` is
the set of claimed ids, `idx` the current index (for the group id), and
the remaining clients are scanned in order; a group is formed from the
current client and every unclaimed later client judged duplicate of it. -/
def findDuplicatesAux : List String → Nat → List Client → List DuplicateGroup
  | _, _, [] => []
  | processed, idx, c :: rest =>
    if processed.contains c.id then findDuplicatesAux processed (idx + 1) rest
    else
      match rest.filter (fun o => !processed.contains o.id && isDuplicate c o) with
      | [] => findDuplicatesAux processed (idx + 1) rest
      | d :: ds =>
        { id := "group-" ++ toString idx
          clients := c :: d :: ds
          score := calculateDuplicateScore c d
          reason := getDuplicateReason c d } ::
          findDuplicatesAux (processed ++ (c :: d :: ds).map Client.id) (idx + 1) rest

/-- The groups in detection order, before the final sort (the `groups`
array of lines 114–136). -/
def findDuplicatesUnsorted (clients : List Client) : List DuplicateGroup :=
  findDuplicatesAux [] 0 clients

/-- Stable insertion of a group into a list sorted by descending score:
the new (detection-earlier) group goes before the first entry whose score
does not exceed it. -/
def insertByScore (g : DuplicateGroup) : List DuplicateGroup → List DuplicateGroup
  | [] => [g]
  | h :: t => if h.score ≤ g.score then g :: h :: t else h :: insertByScore g t

/-- Stable sort by descending score.  Line 138 of the source is
`groups.sort((a, b) => b.score - a.score)`; `Array.prototype.sort` is
stable, and a stable sort consistent with that comparator is unique, so
this stable insertion sort computes exactly the array the source returns. -/
def sortByScoreDesc : List DuplicateGroup → List DuplicateGroup
  | [] => []
  | g :: gs => insertByScore g (sortByScoreDesc gs)

/-- `findDuplicates` (lines 113–139). -/
def findDuplicates (clients : List Client) : List DuplicateGroup :=
  sortByScoreDesc (findDuplicatesUnsorted clients)

/-- The storage state the merge operates on: the `clients` and
`interactions` tables. -/
structure MergeState where
  clients : List Client
  interactions : List Interaction
deriving Repr, DecidableEq

/-- The database calls `executeMerge` issues. -/
inductive DbCall where
  | reassign (fromId toId : String)
  | updateContacts (clientId : String) (newCount : Nat)
  | deleteClient (clientId : String)
deriving Repr, DecidableEq

/-- The errors `executeMerge` can surface, identifying the failing step. -/
inductive MergeError where
  | primaryNotFound
  | reassignFailed (clientId : String)
  | countUpdateFailed (clientId : String)
  | deleteFailed (clientId : String)
deriving Repr, DecidableEq

/-- The reassignment loop (lines 260–267): for each duplicate in order,
re-point all interactions with `client_id = duplicate.id` to the primary;
stop with the surfaced error on the first failing call. -/
def reassignAll (fail : DbCall → Bool) (primaryId : String) :
    List Client → MergeState → MergeState × Option MergeError
  | [], st => (st, none)
  | d :: ds, st =>
    if fail (.reassign d.id primaryId) then (st, some (.reassignFailed d.id))
    else reassignAll fail primaryId ds
      { st with interactions := st.interactions.map fun i =>
          if i.client_id = d.id then { i with client_id := primaryId } else i }

/-- The deletion loop (lines 279–286): delete each duplicate's client row
in order; stop with the surfaced error on the first failing call. -/
def deleteAll (fail : DbCall → Bool) :
    List Client → MergeState → MergeState × Option MergeError
  | [], st => (st, none)
  | d :: ds, st =>
    if fail (.deleteClient d.id) then (st, some (.deleteFailed d.id))
    else deleteAll fail ds
      { st with clients := st.clients.filter fun c => c.id ≠ d.id }

/-- `executeMerge` (lines 249–297) as a state transformer: find the
primary in the selected group, reassign every duplicate's interactions,
set the primary's contact count to the sum over the whole group, then
delete the duplicates.  The returned `Option MergeError` is the error the
caller sees (`none` = the success path). -/
def executeMerge (fail : DbCall → Bool) (group : List Client)
    (primaryId : String) (st : MergeState) : MergeState × Option MergeError :=
  match group.find? (fun c => c.id = primaryId) with
  | none => (st, some .primaryNotFound)
  | some primary =>
    let duplicates := group.filter fun c => c.id ≠ primaryId
    match reassignAll fail primary.id duplicates st with
    | (st1, some e) => (st1, some e)
    | (st1, none) =>
      let totalContacts := (group.map Client.contacts).sum
      if fail (.updateContacts primary.id totalContacts) then
        (st1, some (.countUpdateFailed primary.id))
      else
        let st2 : MergeState := { st1 with clients := st1.clients.map fun c =>
          if c.id = primary.id then { c with contacts := totalContacts } else c }
        deleteAll fail duplicates st2

/-- Reference recursion for the Levenshtein distance, consuming both
strings from the END (matching the prefix semantics of the DP matrix):
used only to prove properties of `levenshteinDistance`. -/
def levE (xs ys : List Char) : Nat :=
  if h1 : xs = [] then ys.length
  else if h2 : ys = [] then xs.length
  else if xs.getLastD 'a' = ys.getLastD 'a' then levE xs.dropLast ys.dropLast
  else 1 + min (levE xs.dropLast ys.dropLast)
        (min (levE xs ys.dropLast) (levE xs.dropLast ys))
termination_by xs.length + ys.length
decreasing_by
  all_goals
    simp only [List.length_dropLast]
    have hx : 0 < xs.length := List.length_pos.mpr h1
    have hy : 0 < ys.length := List.length_pos.mpr h2
    omega

/-- The tail (entries `1 …`) of the DP row for the consumed prefix `q` of
`str2`, columns continuing after the consumed prefix `t` of `str1`. -/
def tailRowFor (q t : List Char) : List Char → List Nat
  | [] => []
  | a :: as => levE q (t ++ [a]) :: tailRowFor q (t ++ [a]) as

/-- The full DP row for prefix `q` of `str2` over the columns `as` of
`str1` continuing after `t`. -/
def rowFor (q t : List Char) (as : List Char) : List Nat :=
  levE q t :: tailRowFor q t as

/-! Concrete scenario records used by the claim theorems and witnesses. -/

/-- First record of the spec's "similar name + demographics" scenario. -/
def c1a : Client :=
  { id := "1", first_name := "Jon", last_name := "Smyth", age := some 30, contacts := 1 }

/-- Second record of the spec's "similar name + demographics" scenario. -/
def c1b : Client :=
  { id := "2", first_name := "John", last_name := "Smith", age := some 30, contacts := 1 }

/-- First record of the spec's exact-name-match scenario. -/
def c2a : Client :=
  { id := "3", first_name := "John", last_name := "Smith", aka := some "", contacts := 2 }

/-- Second record of the spec's exact-name-match scenario. -/
def c2b : Client :=
  { id := "4", first_name := "John", last_name := "Smith", aka := some "", contacts := 5 }

/-- A two-client table for the merge witnesses. -/
def wClients : List Client :=
  [{ id := "a", first_name := "Al", last_name := "Doe", contacts := 1 },
   { id := "b", first_name := "Al", last_name := "Doe", contacts := 2 }]

/-- Initial storage state for the merge witnesses: one interaction on the
client to be absorbed. -/
def wState : MergeState := { clients := wClients, interactions := [⟨"i1", "b"⟩] }

/-- Failure oracle on which every database call succeeds. -/
def wNoFail : DbCall → Bool := fun _ => false

/-- The storage state after merging `wClients` into client `"a"`. -/
def wFinal : MergeState :=
  { clients := [{ id := "a", first_name := "Al", last_name := "Doe", contacts := 3 }],
    interactions := [⟨"i1", "a"⟩] }

/-- Failure oracle on which exactly the contact-count update fails. -/
def wFailUpdate : DbCall → Bool := fun c =>
  match c with
  | .updateContacts _ _ => true
  | _ => false

/-- The storage state after the reassignment phase of merging `wClients`
into `"a"`, before any contact update or deletion. -/
def wAfterReassign : MergeState := { clients := wClients, interactions := [⟨"i1", "a"⟩] }

/-- Survivor of the 3-member merge scenario, `contacts = 5`. -/
def mA : Client := { id := "a", first_name := "Al", last_name := "Doe", contacts := 5 }

/-- Absorbed member of the 3-member merge scenario, `contacts = 2`. -/
def mB : Client := { id := "b", first_name := "Al", last_name := "Doe", contacts := 2 }

/-- Absorbed member of the 3-member merge scenario, `contacts = 1`. -/
def mC : Client := { id := "c", first_name := "Al", last_name := "Doe", contacts := 1 }

/-- The 3-member duplicate group of the merge scenario. -/
def mGroup : List Client := [mA, mB, mC]

/-- Initial storage state of the 3-member merge scenario. -/
def mState : MergeState :=
  { clients := [mA, mB, mC], interactions := [⟨"i1", "b"⟩, ⟨"i2", "c"⟩, ⟨"i3", "a"⟩] }

/-- Final storage state of the 3-member merge scenario: the two absorbed
records deleted, the survivor's count summed, all interactions re-pointed. -/
def mFinal : MergeState :=
  { clients := [{ mA with contacts := 8 }],
    interactions := [⟨"i1", "a"⟩, ⟨"i2", "a"⟩, ⟨"i3", "a"⟩] }

/-- A client with empty first and last name. -/
def e1 : Client := { id := "e1", first_name := "", last_name := "" }

/-- Another client with empty first and last name. -/
def e2 : Client := { id := "e2", first_name := "", last_name := "" }

/-! Properties of the reference recursion `levE` and its bridge to the
DP implementation `levenshteinDistance`. -/

theorem levE_nil_left (ys : List Char) : levE [] ys = ys.length := by
  rw [levE]; simp

theorem levE_nil_right (xs : List Char) : levE xs [] = xs.length := by
  rw [levE]; split
  · simp_all
  · simp

theorem levE_concat_concat (p t : List Char) (c a : Char) :
    levE (p ++ [c]) (t ++ [a]) =
      if c = a then levE p t
      else 1 + min (levE p t) (min (levE (p ++ [c]) t) (levE p (t ++ [a]))) := by
  rw [levE]
  rw [dif_neg (by simp), dif_neg (by simp)]
  simp only [List.getLastD_concat, List.dropLast_concat]

theorem levE_self (xs : List Char) : levE xs xs = 0 := by
  induction xs using List.reverseRecOn with
  | nil => simp [levE_nil_left]
  | append_singleton p c ih => rw [levE_concat_concat, if_pos rfl]; exact ih

theorem levE_comm_aux : ∀ (n : Nat) (xs ys : List Char),
    xs.length + ys.length ≤ n → levE xs ys = levE ys xs := by
  intro n
  induction n with
  | zero =>
    intro xs ys h
    have hx : xs = [] := by cases xs <;> simp_all
    have hy : ys = [] := by cases ys <;> simp_all
    subst hx; subst hy; rfl
  | succ n ih =>
    intro xs ys h
    rcases List.eq_nil_or_concat xs with rfl | ⟨p, c, rfl⟩
    · rw [levE_nil_left, levE_nil_right]
    rcases List.eq_nil_or_concat ys with rfl | ⟨t, a, rfl⟩
    · rw [levE_nil_left, levE_nil_right]
    simp only [List.concat_eq_append] at h ⊢
    simp only [List.length_append, List.length_singleton] at h
    have h1 : p.length + t.length ≤ n := by omega
    have h2 : (p ++ [c]).length + t.length ≤ n := by simp; omega
    have h3 : p.length + (t ++ [a]).length ≤ n := by simp; omega
    rw [levE_concat_concat, levE_concat_concat]
    by_cases hca : c = a
    · rw [if_pos hca, if_pos hca.symm, ih p t h1]
    · rw [if_neg hca, if_neg (Ne.symm hca), ih p t h1, ih (p ++ [c]) t h2, ih p (t ++ [a]) h3]
      omega

theorem levE_comm (xs ys : List Char) : levE xs ys = levE ys xs :=
  levE_comm_aux (xs.length + ys.length) xs ys le_rfl

theorem levE_le_max : ∀ (n : Nat) (xs ys : List Char),
    xs.length + ys.length ≤ n → levE xs ys ≤ max xs.length ys.length := by
  intro n
  induction n with
  | zero =>
    intro xs ys h
    have hx : xs = [] := by cases xs <;> simp_all
    have hy : ys = [] := by cases ys <;> simp_all
    subst hx; subst hy; simp [levE_nil_left]
  | succ n ih =>
    intro xs ys h
    rcases List.eq_nil_or_concat xs with rfl | ⟨p, c, rfl⟩
    · simp [levE_nil_left]
    rcases List.eq_nil_or_concat ys with rfl | ⟨t, a, rfl⟩
    · simp [levE_nil_right]
    simp only [List.concat_eq_append] at h ⊢
    simp only [List.length_append, List.length_singleton] at h ⊢
    have h1 : p.length + t.length ≤ n := by omega
    have hpt := ih p t h1
    rw [levE_concat_concat]
    by_cases hca : c = a
    · rw [if_pos hca]; omega
    · rw [if_neg hca]; omega

theorem tailRowFor_nil_eq_range' : ∀ (as t : List Char),
    tailRowFor [] t as = List.range' (t.length + 1) as.length := by
  intro as
  induction as with
  | nil => intro t; rfl
  | cons a as ih =>
    intro t
    rw [tailRowFor, levE_nil_left, ih (t ++ [a])]
    simp [List.range'_succ, List.length_append]

theorem rowFor_nil_eq_range (str1 : List Char) :
    rowFor [] [] str1 = List.range (str1.length + 1) := by
  rw [rowFor, levE_nil_left, tailRowFor_nil_eq_range', List.range_eq_range']
  rw [List.range'_succ]
  rfl

theorem levRowRest_spec (c : Char) (p : List Char) : ∀ (as t : List Char),
    levRowRest c as (rowFor p t as) (levE (p ++ [c]) t) = tailRowFor (p ++ [c]) t as := by
  intro as
  induction as with
  | nil => intro t; rfl
  | cons a as ih =>
    intro t
    show levRowRest c (a :: as)
      (levE p t :: levE p (t ++ [a]) :: tailRowFor p (t ++ [a]) as) (levE (p ++ [c]) t) = _
    rw [levRowRest]
    have hv : (if c = a then levE p t
        else 1 + min (levE p t) (min (levE (p ++ [c]) t) (levE p (t ++ [a])))) =
        levE (p ++ [c]) (t ++ [a]) := (levE_concat_concat p t c a).symm
    rw [hv]
    have := ih (t ++ [a])
    show levE (p ++ [c]) (t ++ [a]) ::
        levRowRest c as (rowFor p (t ++ [a]) as) (levE (p ++ [c]) (t ++ [a])) = _
    rw [this]
    rfl

theorem levRows_spec (str1 : List Char) : ∀ (cs p : List Char),
    levRows str1 cs (p.length + 1) (rowFor p [] str1) = rowFor (p ++ cs) [] str1 := by
  intro cs
  induction cs with
  | nil => intro p; simp [levRows]
  | cons c cs ih =>
    intro p
    rw [levRows]
    have hhead : p.length + 1 = levE (p ++ [c]) [] := by
      rw [levE_nil_right]; simp
    have hrest : levRowRest c str1 (rowFor p [] str1) (p.length + 1) =
        tailRowFor (p ++ [c]) [] str1 := by
      rw [hhead]; exact levRowRest_spec c p str1 []
    have hrow : ((p.length + 1) :: levRowRest c str1 (rowFor p [] str1) (p.length + 1)) =
        rowFor (p ++ [c]) [] str1 := by
      rw [hrest, rowFor, levE_nil_right]; simp
    rw [hrow]
    have hlen : p.length + 1 + 1 = (p ++ [c]).length + 1 := by simp
    rw [hlen, ih (p ++ [c])]
    simp

theorem rowFor_getLastD (q : List Char) : ∀ (as t : List Char) (d : Nat),
    (rowFor q t as).getLastD d = levE q (t ++ as) := by
  intro as
  induction as with
  | nil => intro t d; simp [rowFor, tailRowFor]
  | cons a as ih =>
    intro t d
    show (levE q t :: rowFor q (t ++ [a]) as).getLastD d = _
    rw [List.getLastD_cons, ih (t ++ [a]) (levE q t)]
    simp

theorem levenshteinDistanceL_eq_levE (str1 str2 : List Char) :
    levenshteinDistanceL str1 str2 = levE str2 str1 := by
  rw [levenshteinDistanceL, ← rowFor_nil_eq_range]
  have := levRows_spec str1 str2 []
  simp only [List.length_nil, List.nil_append] at this
  rw [this, rowFor_getLastD]
  simp

theorem levenshteinDistance_comm (a b : String) :
    levenshteinDistance a b = levenshteinDistance b a := by
  rw [levenshteinDistance, levenshteinDistance, levenshteinDistanceL_eq_levE,
    levenshteinDistanceL_eq_levE, levE_comm]

theorem levenshteinDistance_self (a : String) : levenshteinDistance a a = 0 := by
  rw [levenshteinDistance, levenshteinDistanceL_eq_levE, levE_self]

theorem levenshteinDistance_le_max (a b : String) :
    levenshteinDistance a b ≤ max a.length b.length := by
  rw [levenshteinDistance, levenshteinDistanceL_eq_levE]
  have h := levE_le_max (b.data.length + a.data.length) b.data a.data le_rfl
  rw [Nat.max_comm] at h
  exact h

/-! Properties of the stable descending sort. -/

theorem mem_insertByScore (g : DuplicateGroup) (b : DuplicateGroup) :
    ∀ (l : List DuplicateGroup), b ∈ insertByScore g l ↔ b = g ∨ b ∈ l := by
  intro l
  induction l with
  | nil => simp [insertByScore]
  | cons x t ih =>
    rw [insertByScore]
    split
    · simp [List.mem_cons]
    · simp only [List.mem_cons, ih]
      tauto

theorem pairwise_insertByScore (g : DuplicateGroup) :
    ∀ (l : List DuplicateGroup), l.Pairwise (fun a b => b.score ≤ a.score) →
      (insertByScore g l).Pairwise (fun a b => b.score ≤ a.score) := by
  intro l
  induction l with
  | nil => intro _; simp [insertByScore]
  | cons x t ih =>
    intro hl
    rcases List.pairwise_cons.mp hl with ⟨hx, ht⟩
    rw [insertByScore]
    split
    · rename_i hle
      refine List.pairwise_cons.mpr ⟨?_, hl⟩
      intro b hb
      rcases List.mem_cons.mp hb with rfl | hbt
      · exact hle
      · exact le_trans (hx b hbt) hle
    · rename_i hgt
      refine List.pairwise_cons.mpr ⟨?_, ih ht⟩
      intro b hb
      rcases (mem_insertByScore g b t).mp hb with rfl | hbt
      · omega
      · exact hx b hbt

theorem sortByScoreDesc_pairwise : ∀ (l : List DuplicateGroup),
    (sortByScoreDesc l).Pairwise (fun a b => b.score ≤ a.score) := by
  intro l
  induction l with
  | nil => simp [sortByScoreDesc]
  | cons g gs ih => exact pairwise_insertByScore g _ ih

theorem filter_insertByScore (g : DuplicateGroup) (s : Int) : ∀ (l : List DuplicateGroup),
    (insertByScore g l).filter (fun x => decide (x.score = s)) =
      if g.score = s then g :: l.filter (fun x => decide (x.score = s))
      else l.filter (fun x => decide (x.score = s)) := by
  intro l
  induction l with
  | nil =>
    rw [insertByScore]
    split <;> simp_all [List.filter]
  | cons x t ih =>
    rw [insertByScore]
    split
    · rename_i hle
      by_cases hg : g.score = s <;> simp [List.filter_cons, hg]
    · rename_i hgt
      rw [List.filter_cons, List.filter_cons]
      by_cases hx : x.score = s
      · by_cases hg : g.score = s
        · exfalso; rw [hx, hg] at hgt; exact hgt le_rfl
        · simp [hx, hg, ih]
      · by_cases hg : g.score = s
        · simp [hx, hg, ih]
        · simp [hx, hg, ih]

theorem filter_sortByScoreDesc (s : Int) : ∀ (l : List DuplicateGroup),
    (sortByScoreDesc l).filter (fun x => decide (x.score = s)) =
      l.filter (fun x => decide (x.score = s)) := by
  intro l
  induction l with
  | nil => rfl
  | cons g gs ih =>
    rw [sortByScoreDesc, filter_insertByScore, List.filter_cons]
    by_cases hg : g.score = s
    · rw [if_pos hg, ih]
      simp [hg]
    · rw [if_neg hg, ih]
      simp [hg]

/-! Properties of the merge loops. -/

theorem reassignAll_clients (fail : DbCall → Bool) (p : String) :
    ∀ (ds : List Client) (st : MergeState),
      (reassignAll fail p ds st).1.clients = st.clients := by
  intro ds
  induction ds with
  | nil => intro st; rfl
  | cons d ds ih =>
    intro st
    rw [reassignAll]
    split
    · rfl
    · exact ih _

theorem reassignAll_error (fail : DbCall → Bool) (p : String) :
    ∀ (ds : List Client) (st st' : MergeState) (e : MergeError),
      reassignAll fail p ds st = (st', some e) → ∃ s, e = MergeError.reassignFailed s := by
  intro ds
  induction ds with
  | nil => intro st st' e h; simp [reassignAll] at h
  | cons d ds ih =>
    intro st st' e h
    rw [reassignAll] at h
    split at h
    · have : some (MergeError.reassignFailed d.id) = some e := (Prod.mk.injEq _ _ _ _).mp h |>.2
      exact ⟨d.id, (Option.some.injEq _ _).mp this |>.symm⟩
    · exact ih _ _ _ h

theorem reassignAll_interactions (fail : DbCall → Bool) (p : String) :
    ∀ (ds : List Client) (st st' : MergeState),
      reassignAll fail p ds st = (st', none) →
      st'.interactions = st.interactions.map fun i =>
        if i.client_id ∈ ds.map Client.id then { i with client_id := p } else i := by
  intro ds
  induction ds with
  | nil =>
    intro st st' h
    simp only [reassignAll, Prod.mk.injEq] at h
    rw [← h.1]
    simp
  | cons d ds ih =>
    intro st st' h
    rw [reassignAll] at h
    split at h
    · simp at h
    · have step := ih _ _ h
      rw [step]
      simp only [List.map_map]
      apply List.map_congr_left
      intro i _
      simp only [Function.comp_apply]
      by_cases hd : i.client_id = d.id
      · simp only [hd, if_pos rfl]
        by_cases hds : p ∈ ds.map Client.id
        · simp [hds, List.mem_cons, hd]
        · simp [hds, List.mem_cons, hd]
      · simp only [if_neg hd]
        by_cases hds : i.client_id ∈ ds.map Client.id
        · simp [hds, List.mem_cons, hd]
        · simp [hds, List.mem_cons, hd]

theorem deleteAll_interactions (fail : DbCall → Bool) :
    ∀ (ds : List Client) (st st' : MergeState),
      deleteAll fail ds st = (st', none) → st'.interactions = st.interactions := by
  intro ds
  induction ds with
  | nil => intro st st' h; simp only [deleteAll, Prod.mk.injEq] at h; rw [← h.1]
  | cons d ds ih =>
    intro st st' h
    rw [deleteAll] at h
    split at h
    · simp at h
    · have h2 := ih _ _ h
      exact h2

theorem deleteAll_error (fail : DbCall → Bool) :
    ∀ (ds : List Client) (st st' : MergeState) (e : MergeError),
      deleteAll fail ds st = (st', some e) → ∃ s, e = MergeError.deleteFailed s := by
  intro ds
  induction ds with
  | nil => intro st st' e h; simp [deleteAll] at h
  | cons d ds ih =>
    intro st st' e h
    rw [deleteAll] at h
    split at h
    · have : some (MergeError.deleteFailed d.id) = some e := (Prod.mk.injEq _ _ _ _).mp h |>.2
      exact ⟨d.id, (Option.some.injEq _ _).mp this |>.symm⟩
    · exact ih _ _ _ h

theorem deleteAll_mem (fail : DbCall → Bool) :
    ∀ (ds : List Client) (st st' : MergeState),
      deleteAll fail ds st = (st', none) →
      ∀ c : Client, c ∈ st'.clients ↔ (c ∈ st.clients ∧ ∀ d ∈ ds, c.id ≠ d.id) := by
  intro ds
  induction ds with
  | nil =>
    intro st st' h c
    simp only [deleteAll, Prod.mk.injEq] at h
    rw [← h.1]
    simp
  | cons d ds ih =>
    intro st st' h c
    rw [deleteAll] at h
    split at h
    · simp at h
    · have hm := ih _ _ h c
      rw [hm]
      simp only [List.mem_filter, List.forall_mem_cons, decide_eq_true_eq]
      tauto

theorem updClient_id (c0 : Client) (pid : String) (n : Nat) :
    (if c0.id = pid then { c0 with contacts := n } else c0).id = c0.id := by
  split <;> rfl

theorem executeMerge_success_spec
    (fail : DbCall → Bool) (group : List Client) (primaryId : String)
    (st st' : MergeState)
    (hrun : executeMerge fail group primaryId st = (st', none)) :
    ∃ primary : Client, group.find? (fun c => c.id = primaryId) = some primary ∧
      primary.id = primaryId ∧
      st'.interactions = st.interactions.map (fun i =>
        if i.client_id ∈ (group.filter fun c => c.id ≠ primaryId).map Client.id
        then { i with client_id := primary.id } else i) ∧
      (∀ c : Client, c ∈ st'.clients ↔
        ((∃ c0 ∈ st.clients, c = (if c0.id = primary.id
            then { c0 with contacts := (group.map Client.contacts).sum } else c0)) ∧
         ∀ d ∈ (group.filter fun c => c.id ≠ primaryId), c.id ≠ d.id)) := by
  rw [executeMerge] at hrun
  cases hfind : group.find? (fun c => c.id = primaryId) with
  | none => rw [hfind] at hrun; simp at hrun
  | some primary =>
    rw [hfind] at hrun
    simp only at hrun
    have hpid : primary.id = primaryId := by
      have := List.find?_some hfind
      simpa using this
    refine ⟨primary, rfl, hpid, ?_⟩
    cases hre : reassignAll fail primary.id (group.filter fun c => c.id ≠ primaryId) st with
    | mk st1 oe =>
      rw [hre] at hrun
      cases oe with
      | some e1 => simp at hrun
      | none =>
        simp only at hrun
        have hcl1 : st1.clients = st.clients := by
          have := reassignAll_clients fail primary.id (group.filter fun c => c.id ≠ primaryId) st
          rw [hre] at this
          exact this
        have hint1 : st1.interactions = st.interactions.map fun i =>
            if i.client_id ∈ (group.filter fun c => c.id ≠ primaryId).map Client.id
            then { i with client_id := primary.id } else i :=
          reassignAll_interactions fail primary.id _ st st1 hre
        split at hrun
        · simp at hrun
        · constructor
          · have hdel := deleteAll_interactions fail _ _ _ hrun
            rw [hdel]
            exact hint1
          · intro c
            have hmem := deleteAll_mem fail _ _ _ hrun c
            rw [hmem]
            simp only [List.mem_map]
            constructor
            · rintro ⟨⟨c0, hc0, heq⟩, hnd⟩
              refine ⟨?_, hnd⟩
              rw [hcl1] at hc0
              exact ⟨c0, hc0, heq.symm⟩
            · rintro ⟨⟨c0, hc0, heq⟩, hnd⟩
              refine ⟨?_, hnd⟩
              rw [← hcl1] at hc0
              exact ⟨c0, hc0, heq.symm⟩

/-! Arithmetic helper and concrete evaluations for the scenario claims. -/

theorem ratio_unit_interval (L d : Nat) (hL : L ≠ 0) (hd : d ≤ L) :
    0 ≤ ((L : ℚ) - (d : ℚ)) / (L : ℚ) ∧ ((L : ℚ) - (d : ℚ)) / (L : ℚ) ≤ 1 := by
  have hL' : (0 : ℚ) < (L : ℚ) := by exact_mod_cast Nat.pos_of_ne_zero hL
  have hd' : (d : ℚ) ≤ (L : ℚ) := by exact_mod_cast hd
  constructor
  · apply div_nonneg (by linarith) (le_of_lt hL')
  · rw [div_le_one hL']
    have : (0 : ℚ) ≤ (d : ℚ) := by positivity
    linarith

theorem sim_c1 : calculateNameSimilarity "jon smyth" "john smith" = 4/5 := by
  have h1 : ¬ ("jon smyth".length > "john smith".length) := by decide
  have h2 : ¬ ("john smith".length = 0) := by decide
  have hlev : levenshteinDistance "john smith" "jon smyth" = 2 := by decide
  simp only [calculateNameSimilarity, if_neg h1]
  rw [if_neg h2, hlev, show "john smith".length = 10 from by decide]
  norm_num

theorem sim_c1_not_gt : ¬ (calculateNameSimilarity "jon smyth" "john smith" > (0.8 : ℚ)) := by
  rw [sim_c1]; norm_num

theorem dup_c1 : isDuplicate c1a c1b = false := by
  have hn1 : jsTrim (jsToLowerCase (c1a.first_name ++ " " ++ c1a.last_name)) = "jon smyth" := by
    decide
  have hn2 : jsTrim (jsToLowerCase (c1b.first_name ++ " " ++ c1b.last_name)) = "john smith" := by
    decide
  simp only [isDuplicate, hn1, hn2, decide_eq_false sim_c1_not_gt]
  decide

theorem find_c1 : findDuplicates [c1a, c1b] = [] := by
  simp only [findDuplicates, findDuplicatesUnsorted, findDuplicatesAux, sortByScoreDesc,
    List.filter, dup_c1]

/-- Claim C1 (counterexample): for the two records of the scenario the
computed name similarity of "jon smyth" and "john smith" is NOT strictly
greater than 0.8, and `findDuplicates` places the two records in no group
at all, contrary to the claimed grouping with reason and score. -/

theorem c1_counterexample :
    ¬ (calculateNameSimilarity "jon smyth" "john smith" > (0.8 : ℚ)) ∧
    findDuplicates [c1a, c1b] = [] :=
  ⟨sim_c1_not_gt, find_c1⟩

/-- Claim C1 (amended): the name similarity of the normalized names
"jon smyth" and "john smith" is exactly 4/5 = 0.8, which fails the
strict `> 0.8` test, so `isDuplicate` rejects the pair and
`findDuplicates` returns no groups for the two-record input. -/

theorem c1_similarity_boundary :
    calculateNameSimilarity "jon smyth" "john smith" = 4/5 ∧
    isDuplicate c1a c1b = false ∧
    findDuplicates [c1a, c1b] = [] :=
  ⟨sim_c1, dup_c1, find_c1⟩

/-- Claim C2 (counterexample): for the two-record input the single group
returned by `findDuplicates` has score 97 — not at least 100 — and its
reason string is "Exact name match" (capitalized), not
"exact name match". -/

theorem c2_counterexample :
    (findDuplicates [c2a, c2b]).map DuplicateGroup.score = [97] ∧
    (findDuplicates [c2a, c2b]).map DuplicateGroup.reason = ["Exact name match"] ∧
    ¬ ((100 : Int) ≤ 97) ∧
    ¬ ("Exact name match" = "exact name match") := by
  refine ⟨by decide, by decide, by decide, by decide⟩

/-- Claim C2 (amended): for the two-record input `findDuplicates` returns
exactly one group containing both records, with reason "Exact name match"
and score 97 = 100 − |2 − 5|. -/

theorem c2_exact_match_group :
    findDuplicates [c2a, c2b] =
      [{ id := "group-0", clients := [c2a, c2b], score := 97, reason := "Exact name match" }] := by
  decide

/-- Claim C3: after any completed (error-free) run of `executeMerge`, if
every interaction initially referenced an existing client and the chosen
survivor id exists in the clients table, then every interaction still
references an existing client — in particular none references a deleted
(non-survivor) record. -/

theorem executeMerge_referential_integrity
    (fail : DbCall → Bool) (group : List Client) (primaryId : String)
    (st st' : MergeState)
    (hrun : executeMerge fail group primaryId st = (st', none))
    (hRI : ∀ i ∈ st.interactions, ∃ c ∈ st.clients, c.id = i.client_id)
    (hprim : ∃ c ∈ st.clients, c.id = primaryId) :
    ∀ i ∈ st'.interactions, ∃ c ∈ st'.clients, c.id = i.client_id := by
  rcases executeMerge_success_spec fail group primaryId st st' hrun with
    ⟨primary, hfind, hpid, hint, hcl⟩
  intro i hi
  rw [hint] at hi
  rcases List.mem_map.mp hi with ⟨i0, hi0, rfl⟩
  by_cases hm : i0.client_id ∈ (group.filter fun c => c.id ≠ primaryId).map Client.id
  · rcases hprim with ⟨c0, hc0, hc0id⟩
    refine ⟨if c0.id = primary.id then { c0 with contacts := (group.map Client.contacts).sum }
        else c0, ?_, ?_⟩
    · rw [hcl]
      refine ⟨⟨c0, hc0, rfl⟩, ?_⟩
      intro d hd
      have hdid : d.id ≠ primaryId := by
        have := (List.mem_filter.mp hd).2
        simpa using this
      rw [updClient_id, hc0id]
      exact fun hh => hdid hh.symm
    · rw [updClient_id, hc0id, if_pos hm, hpid]
  · rcases hRI i0 hi0 with ⟨c0, hc0, hc0id⟩
    refine ⟨if c0.id = primary.id then { c0 with contacts := (group.map Client.contacts).sum }
        else c0, ?_, ?_⟩
    · rw [hcl]
      refine ⟨⟨c0, hc0, rfl⟩, ?_⟩
      intro d hd
      rw [updClient_id, hc0id]
      intro hh
      exact hm (by
        rw [hh]
        exact List.mem_map.mpr ⟨d, hd, rfl⟩)
    · rw [updClient_id, hc0id, if_neg hm]

/-- Claim C3 witness: the concrete two-client merge runs to completion and
referential integrity holds in the final state. -/

theorem executeMerge_referential_integrity_witness :
    executeMerge wNoFail wClients "a" wState = (wFinal, none) ∧
    ∀ i ∈ wFinal.interactions, ∃ c ∈ wFinal.clients, c.id = i.client_id :=
  ⟨by decide,
    executeMerge_referential_integrity wNoFail wClients "a" wState wFinal (by decide)
      (by decide) (by decide)⟩

/-- Claim C4: if `executeMerge` surfaces a reassignment or contact-count
update error, the clients table is exactly as it was initially — no
client deletion has occurred — and the caller receives that error. -/

theorem executeMerge_error_before_deletion
    (fail : DbCall → Bool) (group : List Client) (primaryId : String)
    (st st' : MergeState) (e : MergeError)
    (hrun : executeMerge fail group primaryId st = (st', some e))
    (he : (∃ s, e = MergeError.reassignFailed s) ∨ (∃ s, e = MergeError.countUpdateFailed s)) :
    st'.clients = st.clients := by
  rw [executeMerge] at hrun
  cases hfind : group.find? (fun c => c.id = primaryId) with
  | none =>
    rw [hfind] at hrun
    simp only [Prod.mk.injEq] at hrun
    rw [← hrun.1]
  | some primary =>
    rw [hfind] at hrun
    simp only at hrun
    cases hre : reassignAll fail primary.id (group.filter fun c => c.id ≠ primaryId) st with
    | mk st1 oe =>
      have hcl : st1.clients = st.clients := by
        have := reassignAll_clients fail primary.id (group.filter fun c => c.id ≠ primaryId) st
        rw [hre] at this
        exact this
      rw [hre] at hrun
      cases oe with
      | some e1 =>
        simp only [Prod.mk.injEq] at hrun
        rw [← hrun.1]
        exact hcl
      | none =>
        simp only at hrun
        split at hrun
        · simp only [Prod.mk.injEq] at hrun
          rw [← hrun.1]
          exact hcl
        · rcases deleteAll_error fail _ _ _ _ hrun with ⟨s, rfl⟩
          rcases he with ⟨s1, h1⟩ | ⟨s1, h1⟩ <;> exact absurd h1 (by simp)

/-- Claim C4 witness: with an oracle failing the count update, the
concrete merge surfaces `countUpdateFailed` and leaves the clients table
untouched. -/

theorem executeMerge_error_before_deletion_witness :
    executeMerge wFailUpdate wClients "a" wState =
      (wAfterReassign, some (MergeError.countUpdateFailed "a")) ∧
    wAfterReassign.clients = wState.clients :=
  ⟨by decide,
    executeMerge_error_before_deletion wFailUpdate wClients "a" wState wAfterReassign
      (MergeError.countUpdateFailed "a") (by decide) (Or.inr ⟨"a", rfl⟩)⟩

/-- Claim C5: after any completed run of `executeMerge`, every client row
whose id is the survivor's carries a contact count equal to the sum of
contact counts over every member of the selected group, survivor
included. -/

theorem executeMerge_survivor_contacts_sum
    (fail : DbCall → Bool) (group : List Client) (primaryId : String)
    (st st' : MergeState)
    (hrun : executeMerge fail group primaryId st = (st', none)) :
    ∀ c ∈ st'.clients, c.id = primaryId →
      c.contacts = (group.map Client.contacts).sum := by
  rcases executeMerge_success_spec fail group primaryId st st' hrun with
    ⟨primary, hfind, hpid, hint, hcl⟩
  intro c hc hcid
  rcases (hcl c).mp hc with ⟨⟨c0, hc0, rfl⟩, hnd⟩
  by_cases h : c0.id = primary.id
  · rw [if_pos h]
  · rw [updClient_id] at hcid
    exact absurd (hcid.trans hpid.symm) h

/-- Claim C5 witness: merging the 3-member group with contacts 5, 2 and 1
leaves one client (two deleted) whose contact count 8 is the group sum. -/

theorem executeMerge_survivor_contacts_sum_witness :
    executeMerge wNoFail mGroup "a" mState = (mFinal, none) ∧
    mState.clients.length = 3 ∧ mFinal.clients.length = 1 ∧
    ({ mA with contacts := 8 } : Client).contacts = (mGroup.map Client.contacts).sum :=
  ⟨by decide, by decide, by decide,
    executeMerge_survivor_contacts_sum wNoFail mGroup "a" mState mFinal (by decide)
      { mA with contacts := 8 } (by decide) (by decide)⟩

/-- Claim C6: the duplicate score is never negative, whatever the two
records' contact-count difference. -/

theorem calculateDuplicateScore_nonneg (client1 client2 : Client) :
    0 ≤ calculateDuplicateScore client1 client2 := by
  unfold calculateDuplicateScore
  exact le_max_left 0 _

/-- Claim C7: the edit distance is symmetric in its two arguments and the
distance of any string to itself is 0. -/

theorem levenshteinDistance_symm_and_self :
    (∀ a b : String, levenshteinDistance a b = levenshteinDistance b a) ∧
    (∀ a : String, levenshteinDistance a a = 0) :=
  ⟨levenshteinDistance_comm, levenshteinDistance_self⟩

/-- Claim C8: the group list returned by `findDuplicates` is sorted in
descending score order, and for every score the groups carrying that score
appear exactly as in detection order: the sort is stable. -/

theorem findDuplicates_sorted_desc_stable (clients : List Client) :
    (findDuplicates clients).Pairwise (fun a b => b.score ≤ a.score) ∧
    ∀ s : Int, (findDuplicates clients).filter (fun g => decide (g.score = s)) =
      (findDuplicatesUnsorted clients).filter (fun g => decide (g.score = s)) :=
  ⟨sortByScoreDesc_pairwise _, fun s => filter_sortByScoreDesc s _⟩

/-- Claim C9: two records whose first and last names are all empty are
judged duplicates by the exact-name-match rule — empty names are not
special-cased. -/

theorem isDuplicate_empty_names (c1 c2 : Client)
    (h1 : c1.first_name = "") (h2 : c1.last_name = "")
    (h3 : c2.first_name = "") (h4 : c2.last_name = "") :
    isDuplicate c1 c2 = true := by
  simp only [isDuplicate, h1, h2, h3, h4]
  simp

/-- Claim C9 witness: two concrete empty-named records are judged
duplicates. -/

theorem isDuplicate_empty_names_witness :
    e1.first_name = "" ∧ e1.last_name = "" ∧ e2.first_name = "" ∧ e2.last_name = "" ∧
    isDuplicate e1 e2 = true :=
  ⟨rfl, rfl, rfl, rfl, isDuplicate_empty_names e1 e2 rfl rfl rfl rfl⟩

/-- Claim C10: `calculateNameSimilarity` is total and always returns a
value in the closed interval [0, 1]: the empty-longer case returns 1
outright, and otherwise the Levenshtein distance never exceeds the longer
length, so the ratio is between 0 and 1. -/

theorem calculateNameSimilarity_bounds (name1 name2 : String) :
    0 ≤ calculateNameSimilarity name1 name2 ∧ calculateNameSimilarity name1 name2 ≤ 1 := by
  by_cases hgt : name1.length > name2.length
  · simp only [calculateNameSimilarity, if_pos hgt]
    by_cases hz : name1.length = 0
    · rw [if_pos hz]; norm_num
    · rw [if_neg hz]
      apply ratio_unit_interval _ _ hz
      have := levenshteinDistance_le_max name1 name2
      omega
  · simp only [calculateNameSimilarity, if_neg hgt]
    by_cases hz : name2.length = 0
    · rw [if_pos hz]; norm_num
    · rw [if_neg hz]
      apply ratio_unit_interval _ _ hz
      have := levenshteinDistance_le_max name2 name1
      omega
